import Mathlib

/-! Verification model of the styled-text layout and pagination engine of
`ficopdfgen` (Go).
Text is modelled at the byte level (`List Nat`, one
entry per byte of the Go string) except where the source itself decodes
runes, which is noted at the definition.  Floating point coordinates are
modelled as rationals; all concrete inputs used in theorems keep every
intermediate value exactly representable, where float and rational
arithmetic agree.  Drawing and measuring are capabilities: measurement is
an explicit function argument and drawing is recorded as an event list.
-/

namespace FG

/-- Bytes of an ASCII string: for ASCII text the Go byte indexing used by
the scanners coincides with codepoints, so `ascii` gives the exact byte
list the Go code scans. -/
def ascii (s : String) : List Nat := s.toList.map Char.toNat

/-- A formatting rule, from the `Rule` struct (`main.go` lines 37-41):
a name, a delimiter (bytes of the Go string) and a font identifier. -/
structure Rule where
  name : String
  delim : List Nat
  font : String
deriving DecidableEq, Repr

/-- A styled run: a span of bytes drawn under one font.  This is the
observable output of `writeFormattedLine` (`main.go` 187-243): each
`flush()` emits one `pdf.Write` of the buffered text under the current
font, which we record as a run. -/
structure Run where
  text : List Nat
  font : String
deriving DecidableEq, Repr

/-- The `flush` closure of `writeFormattedLine` (`main.go` 198-205):
an empty buffer emits nothing, otherwise one run under the given font. -/
def flushRun (buf : List Nat) (font : String) : List Run :=
  if buf = [] then [] else [⟨buf, font⟩]

/-- The toggle of `writeFormattedLine` (`main.go` 225-229): if the current
font already equals the matched rule font, revert to "normal", otherwise
switch to the rule font. -/
def toggleFont (current ruleFont : String) : String :=
  if current = ruleFont then "normal" else ruleFont

/-- First rule whose delimiter is a prefix of the remaining bytes, in
declaration order — the `for _, r := range cfg.Rules` scans of
`writeFormattedLine` (`main.go` 210-217 and 221-232). -/
def firstMatch (rules : List Rule) (rest : List Nat) : Option Rule :=
  rules.find? (fun r => r.delim.isPrefixOf rest)

/-- The scanning loop of `writeFormattedLine` (`main.go` 207-239), with
the loop index replaced by the remaining byte list and the accumulated
buffer and current font threaded explicitly.  `fuel` bounds the number of
iterations: each Go iteration advances `i` by at least one byte whenever
every configured delimiter is nonempty, so `line.length + 1` fuel is
exact for such rule sets (a rule with an empty delimiter makes the Go
loop itself diverge).  Byte 92 is the backslash. -/
def wflScan (rules : List Rule) : Nat → List Nat → String → List Nat → List Run
  | 0, _, font, buf => flushRun buf font
  | _ + 1, [], font, buf => flushRun buf font
  | fuel + 1, b :: t, font, buf =>
    if b = 92 then
      match firstMatch rules t with
      | some r => wflScan rules fuel (t.drop r.delim.length) font (buf ++ r.delim)
      | none =>
        match firstMatch rules (b :: t) with
        | some r =>
          flushRun buf font ++
            wflScan rules fuel ((b :: t).drop r.delim.length) (toggleFont font r.font) []
        | none => wflScan rules fuel t font (buf ++ [b])
    else
      match firstMatch rules (b :: t) with
      | some r =>
        flushRun buf font ++
          wflScan rules fuel ((b :: t).drop r.delim.length) (toggleFont font r.font) []
      | none => wflScan rules fuel t font (buf ++ [b])

/-- `writeFormattedLine` (`main.go` 187-243) as a run lexer: scan one line
starting from the font "normal" with an empty buffer and flush at the
end.  The `pdf.SetFont`/`pdf.Write` calls are recorded as the returned
runs; the trailing cursor move does not affect the runs. -/
def writeFormattedLine (rules : List Rule) (line : List Nat) : List Run :=
  wflScan rules (line.length + 1) line "normal" []

/-- The single rule of the C1 scenario. -/
def boldRule : Rule := ⟨"bold", ascii "**", "bold"⟩

/-- Two distinct rules sharing one font identifier, for C10. -/
def sharedFontRules : List Rule :=
  [⟨"a", ascii "**", "shared"⟩, ⟨"b", ascii "__", "shared"⟩]

/-- A rule whose font is the default font "normal", for C10. -/
def normalFontRule : Rule := ⟨"pct", ascii "%", "normal"⟩

/-- The tag-to-font map consumed by `parseStyled`: the Go code builds a
`map[string]string` with exactly the keys "normal", "bold" and "italic"
(`part_001` 866, `main.go` 947-951) and `parseStyled` reads only those
three keys, so the map is modelled as a record of the three fonts. -/
structure TagRules where
  normal : String
  bold : String
  italic : String
deriving DecidableEq, Repr

/-- The `part` struct of the UTF-8 tag parser (`part_001` 743-747): a
text span, its font, and whether the part carries the line-break flag. -/
structure StyledPart where
  text : List Char
  font : String
  newLine : Bool
deriving DecidableEq, Repr

/-- The `flush` closure of the UTF-8 `parseStyled` (`part_001` 753-758):
append a part when the buffer is nonempty or the break flag is set. -/
def flushPart (buf : List Char) (font : String) (nl : Bool)
    (out : List StyledPart) : List StyledPart :=
  if buf ≠ [] ∨ nl = true then out ++ [⟨buf, font, nl⟩] else out

/-- The scan loop of the UTF-8 tag parser (`part_001` 760-785), modelled
over characters: the Go code byte-matches the ASCII tag literals and
otherwise consumes one rune via `utf8.DecodeRuneInString`, which on
well-formed UTF-8 input is exactly one character, so on such input the
byte scan and this character scan coincide.  The closing-tag case drops
up to and past the first 62 (the byte of the closing angle bracket),
which for the two matched literals is 7 and 9 bytes.  Each branch
consumes at least one unit, so `line.length + 1` fuel is never
exhausted. -/
def parseStyledAux (rules : TagRules) :
    Nat → List Char → String → List Char → List StyledPart → List StyledPart
  | 0, _, font, buf, out => flushPart buf font false out
  | _ + 1, [], font, buf, out => flushPart buf font false out
  | fuel + 1, c :: rest, font, buf, out =>
    if ("<bold>").toList.isPrefixOf (c :: rest) then
      parseStyledAux rules fuel ((c :: rest).drop 6) rules.bold [] (flushPart buf font false out)
    else if ("<italic>").toList.isPrefixOf (c :: rest) then
      parseStyledAux rules fuel ((c :: rest).drop 8) rules.italic [] (flushPart buf font false out)
    else if ("</bold>").toList.isPrefixOf (c :: rest) then
      parseStyledAux rules fuel ((c :: rest).drop 7) rules.normal [] (flushPart buf font false out)
    else if ("</italic>").toList.isPrefixOf (c :: rest) then
      parseStyledAux rules fuel ((c :: rest).drop 9) rules.normal [] (flushPart buf font false out)
    else if ("<br>").toList.isPrefixOf (c :: rest) then
      parseStyledAux rules fuel ((c :: rest).drop 4) font [] (flushPart buf font true out)
    else if ("<br />").toList.isPrefixOf (c :: rest) then
      parseStyledAux rules fuel ((c :: rest).drop 6) font [] (flushPart buf font true out)
    else
      parseStyledAux rules fuel rest font (buf ++ [c]) out

/-- `parseStyled` of the UTF-8 variant (`part_001` 749-788): scan one
line starting from the normal font with empty buffer and output, with a
final non-break flush. -/
def parseStyled (rules : TagRules) (line : List Char) : List StyledPart :=
  parseStyledAux rules (line.length + 1) line rules.normal [] []

/-- The part selection of `writeText` (`part_001` 799-817): a part with
the break flag only advances the cursor (`continue`), so exactly the
parts without the flag have their text drawn. -/
def writeTextDrawn (parts : List StyledPart) : List (List Char) :=
  (parts.filter (fun p => p.newLine = false)).map (fun p => p.text)

/-- UTF-8 encoding of a codepoint below 0x800, as a byte list.  Used to
model the Go conversion `string(b)` of a single byte `b`, which encodes
the codepoint whose value is `b` (one byte below 0x80, two bytes from
0x80 to 0xFF). -/
def encodeByteAsRune (b : Nat) : List Nat :=
  if b < 128 then [b] else [192 + b / 64, 128 + b % 64]

/-- The `flush` closure of the byte-level `parseStyled` (`main.go`
875-879): append a run when the buffer is nonempty. -/
def flushRunTag (buf : List Nat) (font : String) (out : List Run) : List Run :=
  if buf ≠ [] then out ++ [⟨buf, font⟩] else out

/-- The scan loop of the byte-level tag parser (`main.go` 880-898),
modelled byte for byte: the default branch runs
`buf += string(line[0])`, which appends the UTF-8 encoding of the
codepoint whose value is the single byte — not the byte itself — so
every byte at or above 0x80 is re-encoded as two bytes.  No break tags
are recognized in this variant.  Each branch consumes at least one byte,
so `line.length + 1` fuel is never exhausted. -/
def parseStyledBytesAux (rules : TagRules) :
    Nat → List Nat → String → List Nat → List Run → List Run
  | 0, _, font, buf, out => flushRunTag buf font out
  | _ + 1, [], font, buf, out => flushRunTag buf font out
  | fuel + 1, b :: rest, font, buf, out =>
    if (ascii "<bold>").isPrefixOf (b :: rest) then
      parseStyledBytesAux rules fuel ((b :: rest).drop 6) rules.bold [] (flushRunTag buf font out)
    else if (ascii "<italic>").isPrefixOf (b :: rest) then
      parseStyledBytesAux rules fuel ((b :: rest).drop 8) rules.italic [] (flushRunTag buf font out)
    else if (ascii "</bold>").isPrefixOf (b :: rest) then
      parseStyledBytesAux rules fuel ((b :: rest).drop 7) rules.normal [] (flushRunTag buf font out)
    else if (ascii "</italic>").isPrefixOf (b :: rest) then
      parseStyledBytesAux rules fuel ((b :: rest).drop 9) rules.normal [] (flushRunTag buf font out)
    else
      parseStyledBytesAux rules fuel rest font (buf ++ encodeByteAsRune b) out

/-- The byte-level `parseStyled` (`main.go` 870-901). -/
def parseStyledBytes (rules : TagRules) (line : List Nat) : List Run :=
  parseStyledBytesAux rules (line.length + 1) line rules.normal [] []

/-- Concrete tag-to-font map used in the C6 and C7 scenarios. -/
def demoTagRules : TagRules := ⟨"fNormal", "fBold", "fItalic"⟩

/-- Page geometry and font size as read by `writeFormattedLineInline`
(`main.go` 472-476) from `pdf.GetPageSize`, `pdf.GetMargins` and
`cfg.FontSize`. -/
structure Geom where
  pageWidth : ℚ
  pageHeight : ℚ
  marginLeft : ℚ
  marginTop : ℚ
  marginRight : ℚ
  marginBottom : ℚ
  fontSize : ℚ
deriving DecidableEq, Repr

/-- `maxWidth := pageWidth - marginLeft - marginRight` (`main.go` 475). -/
def Geom.maxWidth (g : Geom) : ℚ := g.pageWidth - g.marginLeft - g.marginRight

/-- `lineHeight := cfg.FontSize * 1.2` (`main.go` 476). -/
def Geom.lineHeight (g : Geom) : ℚ := g.fontSize * (6 / 5)

/-- Drawing-surface events recorded by the inline engine: a `pdf.Write`
of some bytes at a cursor position, or a `pdf.AddPage`. -/
inductive Ev where
  | draw (x y : ℚ) (text : List Nat)
  | page
deriving DecidableEq, Repr

/-- The page-break check repeated at every intra-line wrap point of
`writeFormattedLineInline` (`main.go` 519-522, 526-529, 536-539):
if `y + lineHeight > pageHeight - marginBottom` then a page is added and
`y` resets to the top margin.  Returns the new `y` and whether a page
was added. -/
def pageCheck (g : Geom) (y : ℚ) : ℚ × Bool :=
  if y + g.lineHeight > g.pageHeight - g.marginBottom then (g.marginTop, true) else (y, false)

/-- The prefix-fitting count shared by both character-split loops: the Go
loops grow `fit` from 1 while the width of `word[:fit]` stays within the
bound and then step back one (`main.go` 509-513 against `maxWidth`,
`part_001` 195-201 against the remaining width), which is the number of
consecutive prefix lengths, starting at one byte, whose measured width
is within the bound. -/
def fitCount (width : List Nat → ℚ) (word : List Nat) (bound : ℚ) : Nat :=
  ((List.range word.length).takeWhile
    (fun k => decide (width (word.take (k + 1)) ≤ bound))).length

/-- Result of the per-word layout loop: final cursor, events, and the
bytes of the word not yet consumed when the iteration bound ran out. -/
structure LoopOut where
  cx : ℚ
  y : ℚ
  evs : List Ev
  leftover : List Nat
deriving DecidableEq, Repr

/-- The `for len(word) > 0` loop of `writeFormattedLineInline`
(`main.go` 499-531), one fuel unit per Go iteration.  The three branches:
a word fitting the remaining width is drawn and ends the loop; a word
wider than `maxWidth` has its longest fitting prefix drawn (which is
empty when even one byte is too wide — then the remainder equals the
whole word and the Go loop repeats forever, which surfaces here as
unconsumed `leftover` under any fuel); otherwise the line wraps without
drawing.  Wrap branches reset the cursor to the left margin, advance `y`
and run the page-break check.  `width` is the measurement capability for
the already-selected font. -/
def mainWordLoop (width : List Nat → ℚ) (g : Geom) (spaceW : ℚ) :
    Nat → ℚ → ℚ → List Nat → LoopOut
  | 0, cx, y, word => ⟨cx, y, [], word⟩
  | _ + 1, cx, y, [] => ⟨cx, y, [], []⟩
  | fuel + 1, cx, y, b :: t =>
    let word := b :: t
    let wordWidth := width word
    let remaining := g.maxWidth - cx
    if wordWidth ≤ remaining then
      ⟨cx + wordWidth + spaceW, y, [Ev.draw cx y word], []⟩
    else if g.maxWidth < wordWidth then
      let fit := fitCount width word g.maxWidth
      let pc := pageCheck g (y + g.lineHeight)
      let out := mainWordLoop width g spaceW fuel g.marginLeft pc.1 (word.drop fit)
      ⟨out.cx, out.y,
        Ev.draw cx y (word.take fit) :: ((if pc.2 then [Ev.page] else []) ++ out.evs),
        out.leftover⟩
    else
      let pc := pageCheck g (y + g.lineHeight)
      let out := mainWordLoop width g spaceW fuel g.marginLeft pc.1 word
      ⟨out.cx, out.y, (if pc.2 then [Ev.page] else []) ++ out.evs, out.leftover⟩

/-- The per-word rule scan of `writeFormattedLineInline` (`main.go`
489-495): every rule whose delimiter is both a prefix and a suffix of
the (current) word, in declaration order, selects its font and strips
one delimiter from each end.  Go slicing `word[len(d):len(word)-len(d)]`
is `drop` then `take`; when the word is shorter than two delimiters the
Go slice would panic, which no theorem below exercises. -/
def applyRulesWord (rules : List Rule) (font0 : String) (word : List Nat) :
    List Nat × String :=
  rules.foldl
    (fun p r =>
      if r.delim.isPrefixOf p.1 ∧ r.delim.isSuffixOf p.1 then
        ((p.1.drop r.delim.length).take (p.1.length - 2 * r.delim.length), r.font)
      else p)
    (word, font0)

/-- The current-font fallback of `writeFormattedLineInline` (`main.go`
482-485): the font "normal" when configured, otherwise the empty font
name. -/
def defaultFont (fonts : List String) : String :=
  if fonts.contains "normal" then "normal" else ""

/-- Whitespace bytes recognized by `strings.Fields` for ASCII input. -/
def isSpaceByte (b : Nat) : Bool :=
  b == 32 || b == 9 || b == 10 || b == 13 || b == 11 || b == 12

/-- `strings.Fields` (`main.go` 481) on ASCII input: maximal nonempty
runs between whitespace bytes. -/
def fieldsB (line : List Nat) : List (List Nat) :=
  (line.splitOnP isSpaceByte).filter (fun w => !w.isEmpty)

/-- The `for _, word := range words` loop of `writeFormattedLineInline`
(`main.go` 488-544): per word, resolve the font and strip delimiters,
measure a space, run the word layout loop, then the trailing space
advance with its own wrap and page check (`main.go` 533-542).
`widthF font text` is `pdf.GetStringWidth(text)` under `font`. -/
def inlineWords (widthF : String → List Nat → ℚ) (g : Geom) (rules : List Rule)
    (font0 : String) : ℚ → ℚ → List (List Nat) → ℚ × ℚ × List Ev
  | cx, y, [] => (cx, y, [])
  | cx, y, w :: ws =>
    let p := applyRulesWord rules font0 w
    let spaceW := widthF p.2 [32]
    let lo := mainWordLoop (widthF p.2) g spaceW (p.1.length + 1) cx y p.1
    let sp :=
      if g.maxWidth < lo.cx + spaceW then
        let pc := pageCheck g (lo.y + g.lineHeight)
        (g.marginLeft, pc.1, if pc.2 then [Ev.page] else [])
      else (lo.cx + spaceW, lo.y, ([] : List Ev))
    let out := inlineWords widthF g rules font0 sp.1 sp.2.1 ws
    (out.1, out.2.1, lo.evs ++ sp.2.2 ++ out.2.2)

/-- `writeFormattedLineInline` (`main.go` 472-547): split the line into
words, lay them out from the caller's cursor, and finish by moving the
cursor to `(marginLeft, y + lineHeight)` with no page-break check. -/
def writeFormattedLineInlineM (widthF : String → List Nat → ℚ) (g : Geom)
    (rules : List Rule) (fonts : List String) (x0 y0 : ℚ) (line : List Nat) :
    (ℚ × ℚ) × List Ev :=
  let out := inlineWords widthF g rules (defaultFont fonts) x0 y0 (fieldsB line)
  ((g.marginLeft, out.2.1 + g.lineHeight), out.2.2)

/-- The per-line loop of `txtToPDF` (`main.go` 556-559) within one
paragraph: call `writeFormattedLineInline` on each line from the cursor
the previous call left. -/
def renderLines (widthF : String → List Nat → ℚ) (g : Geom) (rules : List Rule)
    (fonts : List String) : ℚ × ℚ → List (List Nat) → (ℚ × ℚ) × List Ev
  | st, [] => (st, [])
  | st, l :: ls =>
    let o := writeFormattedLineInlineM widthF g rules fonts st.1 st.2 l
    let rest := renderLines widthF g rules fonts o.1 ls
    (rest.1, o.2 ++ rest.2)

/-- The `for len(word) > 0` loop of the `part_001` variant of
`writeFormattedLineInline` (`part_001` 193-218), one fuel unit per Go
iteration: measure the fitting prefix against the remaining width; when
nothing fits, wrap to a fresh line and force a one-byte prefix
(`part_001` 202-207); draw the prefix, advance the cursor by its width,
and wrap again when bytes remain.  Events are `(x, y, bytes)` draw
records.  Every iteration consumes at least one byte, so fuel equal to
the word length suffices (proved below). -/
def splitWordP1 (width : List Nat → ℚ) (maxW ml L : ℚ) :
    Nat → ℚ → ℚ → List Nat → ℚ × ℚ × List (ℚ × ℚ × List Nat)
  | 0, cx, y, _ => (cx, y, [])
  | _ + 1, cx, y, [] => (cx, y, [])
  | fuel + 1, cx, y, a :: t =>
    let w := a :: t
    let rem := maxW - cx
    let fit0 := fitCount width w rem
    let cx1 := if fit0 = 0 then ml else cx
    let y1 := if fit0 = 0 then y + L else y
    let fit := if fit0 = 0 then 1 else fit0
    let piece := w.take fit
    let cx2 := cx1 + width piece
    let rest := w.drop fit
    let cx3 := if rest.isEmpty then cx2 else ml
    let y2 := if rest.isEmpty then y1 else y1 + L
    let out := splitWordP1 width maxW ml L fuel cx3 y2 rest
    (out.1, out.2.1, (cx1, y1, piece) :: out.2.2)

/-- The `part_001` split loop run with fuel equal to the word length,
which is enough for every input (each iteration consumes at least one
byte). -/
def splitWordP1Run (width : List Nat → ℚ) (maxW ml L cx y : ℚ)
    (word : List Nat) : ℚ × ℚ × List (ℚ × ℚ × List Nat) :=
  splitWordP1 width maxW ml L word.length cx y word

/-- Table-layout events: one cell box `(x, y, width, height, bytes)` per
`writeMultilineCell` call (whose interior drawing is the inline engine
and is abstracted to the box the row layout allots to it), or a
`pdf.AddPage`. -/
inductive TEv where
  | cell (x y w h : ℚ) (text : List Nat)
  | page
deriving DecidableEq, Repr

/-- The row-height computation of `csvToPDF` (`main.go` 596-607): start
from one `lineHeight` and raise to `len(SplitLines(cell, colWidth-2)) *
lineHeight` whenever a cell wraps to more lines.  `splits cell w` is the
external `pdf.SplitLines([]byte(cell), w)` line count; a missing cell is
the empty string. -/
def rowHeightOf (splits : List Nat → ℚ → Nat) (lineHeight : ℚ)
    (colWidths : List ℚ) (row : List (List Nat)) : ℚ :=
  (List.range colWidths.length).foldl
    (fun h i =>
      if h < (splits (row.getD i []) (colWidths.getD i 0 - 2) : ℚ) * lineHeight then
        (splits (row.getD i []) (colWidths.getD i 0 - 2) : ℚ) * lineHeight
      else h)
    lineHeight

/-- The largest wrapped-line count over the cells of a row at their
column widths (the `k` of claim C4). -/
def maxLines (splits : List Nat → ℚ → Nat) (colWidths : List ℚ)
    (row : List (List Nat)) : Nat :=
  ((List.range colWidths.length).map
    (fun i => splits (row.getD i []) (colWidths.getD i 0 - 2))).foldr Nat.max 0

/-- The cell-drawing loop of a table row (`main.go` 610-619): each cell
is drawn at the running x with the shared row height, and the cursor
advances by the column width. -/
def cellsEvents : List ℚ → ℚ → ℚ → ℚ → List (List Nat) → List TEv
  | [], _, _, _, _ => []
  | w :: ws, cx, y, h, row =>
    TEv.cell cx y w h (row.headD []) :: cellsEvents ws (cx + w) y h (row.drop 1)

/-- The row loop of `csvToPDF` (`main.go` 590-628): skip zero-cell rows,
compute the row height, draw the cells, advance `y` by exactly the row
height, then run the free-space check `y + rowHeight > pageHeight -
marginBottom` — with `rowHeight` still the height of the row just drawn
— adding a page and resetting `y` to the top margin when it fires. -/
def csvRowsLoop (splits : List Nat → ℚ → Nat)
    (pageHeight marginBottom marginTop lineHeight : ℚ) (colWidths : List ℚ) :
    ℚ → ℚ → List (List (List Nat)) → ℚ × List TEv
  | _, y, [] => (y, [])
  | x, y, row :: rest =>
    if row.isEmpty then
      csvRowsLoop splits pageHeight marginBottom marginTop lineHeight colWidths x y rest
    else
      let h := rowHeightOf splits lineHeight colWidths row
      let y1 := y + h
      let fire := pageHeight - marginBottom < y1 + h
      let y2 := if fire then marginTop else y1
      let out := csvRowsLoop splits pageHeight marginBottom marginTop lineHeight colWidths x y2 rest
      (out.1, cellsEvents colWidths x y h row ++
        (if fire then [TEv.page] else []) ++ out.2)

/-- `csvToPDF` of the guarded variant (`main.go` 568-631): an empty
record list returns the (nil) reader error before any drawing
(`main.go` 571-573); otherwise the column count comes from the first
record, the uniform column widths from the usable width, and the row
loop runs from the top-left margin corner.  The `Option` mirrors the Go
error return; reader errors are external and not modelled. -/
def csvToPDFv2 (splits : List Nat → ℚ → Nat) (g : Geom)
    (records : List (List (List Nat))) : Option (List TEv) :=
  match records with
  | [] => some []
  | r0 :: _ =>
    let ws := List.replicate r0.length
      ((g.pageWidth - g.marginLeft - g.marginRight) / (r0.length : ℚ))
    some (csvRowsLoop splits g.pageHeight g.marginBottom g.marginTop
      g.lineHeight ws g.marginLeft g.marginTop records).2

/-- The row loop of the unguarded `csvToPDF` (`main.go` 277-286): each
cell of a row is lexed by `writeFormattedLine` at `xStart + i*colWidth`,
and the row advances by the fixed line height 6. -/
def csvV1Rows (rules : List Rule) (colWidth : ℚ) :
    ℚ → ℚ → List (List (List Nat)) → List (ℚ × ℚ × List Run)
  | _, _, [] => []
  | x, y, row :: rest =>
    (List.range row.length).map
      (fun (i : Nat) => (x + (i : ℚ) * colWidth, y, writeFormattedLine rules (row.getD i []))) ++
      csvV1Rows rules colWidth x (y + 6) rest

/-- `csvToPDF` of the unguarded variants (`main.go` 263-289, and
`part_000` 202-229 with plain cells): `colWidth := 270 / len(records[0])`
indexes the first record unconditionally, so an empty record list makes
the Go program panic with an index out of range, modelled as `none`.
(`270 / 0` for a nonempty record list whose first record has no cells is
`+Inf` in Go and `0` here; no theorem exercises it.)  `x0, y0` is the
cursor the fresh page leaves. -/
def csvToPDFv1 (rules : List Rule) (x0 y0 : ℚ)
    (records : List (List (List Nat))) : Option (List (ℚ × ℚ × List Run)) :=
  match records with
  | [] => none
  | r0 :: _ => some (csvV1Rows rules (270 / (r0.length : ℚ)) x0 y0 records)

/-- Geometry of the C2 failing input: lineHeight 9, usable height
between top margin 10 and bottom bound 30. -/
def gC2 : Geom := ⟨100, 40, 5, 10, 5, 10, 15 / 2⟩

/-- Measurement used in the C2 failing input: every byte one unit wide,
in every font. -/
def widthOne : String → List Nat → ℚ := fun _ s => (s.length : ℚ)

/-- The C2 failing input: three lines of the single word "a". -/
def threeAs : List (List Nat) := [ascii "a", ascii "a", ascii "a"]

/-- Geometry of the C3 stall input: maxWidth 40. -/
def g50 : Geom := ⟨50, 100, 5, 10, 5, 10, 15 / 2⟩

/-- Measurement of the C3 stall input: 50 units per byte, so any single
byte is wider than maxWidth 40. -/
def width50 : List Nat → ℚ := fun s => 50 * (s.length : ℚ)

/-- Measurement of the C7 split input: 20 units per byte. -/
def width20 : List Nat → ℚ := fun s => 20 * (s.length : ℚ)

/-- Wrap measure of the C9 failing input: the cell "x" wraps to three
lines, every other cell to one. -/
def splits3 : List Nat → ℚ → Nat := fun cell _ => if cell = ascii "x" then 3 else 1

/-- Wrap measure where every cell is a single line. -/
def splitsOne : List Nat → ℚ → Nat := fun _ _ => 1

/-- The C9 failing input: a one-line row followed by a three-line row. -/
def rows9 : List (List (List Nat)) := [[ascii "a"], [ascii "x"]]

/-- Whether a table event is a cell box of the given height (page events
pass vacuously). -/
def heightIs (h : ℚ) : TEv → Bool
  | TEv.cell _ _ _ h2 _ => decide (h2 = h)
  | TEv.page => true

/-- Claim C1: in the delimiter-toggle lexer `writeFormattedLine`, an
unescaped occurrence of a rule delimiter flushes the pending run under
the current font and toggles — to "normal" when the current font equals
the rule font, to the rule font otherwise; the line
"plain **bold** plain" with the rule (delimiter "**", font "bold")
lexes to exactly ("plain ", normal), ("bold", bold), (" plain", normal);
and two adjacent uses of one delimiter with empty content between them
("a****b") toggle back to default without emitting a run for the empty
content. -/
theorem claim_C1_toggle :
    (∀ (rules : List Rule) (fuel b : Nat) (t : List Nat) (font : String)
        (buf : List Nat) (r : Rule),
        firstMatch rules (b :: t) = some r →
        (b ≠ 92 ∨ firstMatch rules t = none) →
        wflScan rules (fuel + 1) (b :: t) font buf =
          flushRun buf font ++
            wflScan rules fuel ((b :: t).drop r.delim.length) (toggleFont font r.font) []) ∧
    writeFormattedLine [boldRule] (ascii "plain **bold** plain") =
      [⟨ascii "plain ", "normal"⟩, ⟨ascii "bold", "bold"⟩, ⟨ascii " plain", "normal"⟩] ∧
    writeFormattedLine [boldRule] (ascii "a****b") =
      [⟨ascii "a", "normal"⟩, ⟨ascii "b", "normal"⟩] := by
  refine ⟨?_, by decide, by decide⟩
  intro rules fuel b t font buf r hm hu
  by_cases hb : b = 92
  · subst hb
    have hn : firstMatch rules t = none := by
      rcases hu with h | h
      · exact absurd rfl h
      · exact h
    simp [wflScan, hn, hm]
  · simp [wflScan, hb, hm]

/-- Witness for C1: one concrete toggle step, at buffer "p", remaining
bytes "**x" and the bold rule. -/
theorem claim_C1_toggle_wit :
    wflScan [boldRule] 3 (42 :: ascii "*x") "normal" (ascii "p") =
      flushRun (ascii "p") "normal" ++
        wflScan [boldRule] 2 ((42 :: ascii "*x").drop boldRule.delim.length)
          (toggleFont "normal" boldRule.font) [] :=
  claim_C1_toggle.1 [boldRule] 2 42 (ascii "*x") "normal" (ascii "p") boldRule
    (by decide) (Or.inl (by decide))

/-- Claim C5: a backslash immediately followed by a configured rule
delimiter emits the delimiter literally into the pending run (hence under
the current font), advances past the backslash and the delimiter, and
does not toggle the style state; end to end, "a\**b" with the bold rule
lexes to the single run ("a**b", normal). -/
theorem claim_C5_escape :
    (∀ (rules : List Rule) (fuel : Nat) (t : List Nat) (font : String)
        (buf : List Nat) (r : Rule),
        firstMatch rules t = some r →
        wflScan rules (fuel + 1) (92 :: t) font buf =
          wflScan rules fuel (t.drop r.delim.length) font (buf ++ r.delim)) ∧
    writeFormattedLine [boldRule] (ascii "a\\**b") = [⟨ascii "a**b", "normal"⟩] := by
  refine ⟨?_, by decide⟩
  intro rules fuel t font buf r hm
  simp [wflScan, hm]

/-- Witness for C5: one concrete escape step at "\**". -/
theorem claim_C5_escape_wit :
    wflScan [boldRule] 2 (92 :: ascii "**") "normal" [] =
      wflScan [boldRule] 1 ((ascii "**").drop boldRule.delim.length) "normal"
        ([] ++ boldRule.delim) :=
  claim_C5_escape.1 [boldRule] 1 (ascii "**") "normal" [] boldRule (by decide)

/-- Claim C10: the toggle compares font identifiers, not rule identity.
A rule font equal to the current font always reverts to "normal" (so a
rule whose font is "normal" leaves an already-normal state normal), and
with two distinct rules sharing font "shared", the delimiter of the
second rule closes the style opened by the first: "**x__y" lexes to
("x", shared), ("y", normal); and "a%b" under a rule with font "normal"
lexes to ("a", normal), ("b", normal). -/
theorem claim_C10_font_identity :
    (∀ current : String, toggleFont current current = "normal") ∧
    writeFormattedLine sharedFontRules (ascii "**x__y") =
      [⟨ascii "x", "shared"⟩, ⟨ascii "y", "normal"⟩] ∧
    writeFormattedLine [normalFontRule] (ascii "a%b") =
      [⟨ascii "a", "normal"⟩, ⟨ascii "b", "normal"⟩] := by
  refine ⟨?_, by decide, by decide⟩
  intro current
  simp [toggleFont]

/-- Claim C2 (code evaluated at the failing input): with lineHeight 9,
top margin 10 and bottom bound `pageHeight - marginBottom = 30`, three
consecutive one-word lines are drawn at y = 10, 19 and 28 with no page
break — the third drawn unit satisfies `y + lineHeight > pageHeight -
marginBottom`, violating the claimed invariant, because the bottom-margin
check runs only at intra-line wrap points and never at the end-of-line
cursor advance. -/
theorem claim_C2_bottom_margin :
    (renderLines widthOne gC2 [] ["normal"] (gC2.marginLeft, gC2.marginTop) threeAs).2 =
      [Ev.draw 5 10 (ascii "a"), Ev.draw 5 19 (ascii "a"), Ev.draw 5 28 (ascii "a")] ∧
    gC2.pageHeight - gC2.marginBottom < 28 + gC2.lineHeight :=
  ⟨by with_unfolding_all decide, by with_unfolding_all decide⟩

/-- Claim C6 (code evaluated at the failing input): the tag lexer on
the scenario line produces four parts, with the break flag fused onto
the part carrying "C" rather than a separate text-less break run — no
emitted part has empty text — and the writer skips the text of
break-flagged parts, so only "A", "B" and "D" are drawn and "C" is
silently dropped.  Cross-closing behaviour (any closing tag reverts to
the normal font) does hold: closing bold after opening italic gives
("A", normal), ("B", italic), ("C", normal). -/
theorem claim_C6_tag_runs :
    parseStyled demoTagRules ("A<bold>B</bold>C<br>D").toList =
      [⟨("A").toList, "fNormal", false⟩, ⟨("B").toList, "fBold", false⟩,
        ⟨("C").toList, "fNormal", true⟩, ⟨("D").toList, "fNormal", false⟩] ∧
    ((parseStyled demoTagRules ("A<bold>B</bold>C<br>D").toList).all
      (fun p => !p.text.isEmpty)) = true ∧
    writeTextDrawn (parseStyled demoTagRules ("A<bold>B</bold>C<br>D").toList) =
      [("A").toList, ("B").toList, ("D").toList] ∧
    parseStyled demoTagRules ("A<italic>B</bold>C").toList =
      [⟨("A").toList, "fNormal", false⟩, ⟨("B").toList, "fItalic", false⟩,
        ⟨("C").toList, "fNormal", false⟩] :=
  ⟨by decide, by decide, by decide, by decide⟩

/-- Claim C7 (code evaluated at the failing input): the byte-level tag
lexer re-encodes every byte as its own codepoint, so the two-byte letter
0xC3 0xA9 comes out as the four corrupted bytes 0xC3 0x83 0xC2 0xA9; and
the byte-indexed forced word split cuts the same two-byte letter into
two separate one-byte draw events.  The rune-decoding variant of the tag
lexer does keep multi-byte characters atomic. -/
theorem claim_C7_multibyte :
    parseStyledBytes demoTagRules [195, 169] = [⟨[195, 131, 194, 169], "fNormal"⟩] ∧
    (([195, 131, 194, 169] : List Nat) == [195, 169]) = false ∧
    ((splitWordP1Run width20 30 5 9 5 10 [195, 169]).2.2.map (fun e => e.2.2)) =
      [[195], [169]] ∧
    parseStyled demoTagRules ("é<bold>ü</bold>").toList =
      [⟨("é").toList, "fNormal", false⟩, ⟨("ü").toList, "fBold", false⟩] :=
  ⟨by decide, by decide, by with_unfolding_all decide, by decide⟩

/-- Claim C8 (code evaluated at the failing input): the unguarded table
renderer crashes (indexes the first record) on an empty record list,
while the guarded variant returns successfully rendering nothing; on a
nonempty input the unguarded renderer works. -/
theorem claim_C8_empty_csv :
    csvToPDFv1 [boldRule] 10 10 [] = none ∧
    csvToPDFv2 splitsOne gC2 [] = some [] ∧
    csvToPDFv1 [boldRule] 10 10 [[ascii "a"]] =
      some [(10, 10, [⟨ascii "a", "normal"⟩])] :=
  ⟨rfl, rfl, by with_unfolding_all decide⟩

/-- Counterexample to claim C9: a one-line row (height 5) followed by a
three-line row (height 15) under bottom bound 26.  After the first row
the check `y + 5 > 26` does not fire, so the second row is drawn at
y = 15 even though 15 + 15 exceeds the bound: a row that does not fit is
not started on a fresh page at the top margin. -/
theorem claim_C9_counter :
    (csvRowsLoop splits3 36 10 10 5 [20] 5 10 rows9).2 =
      [TEv.cell 5 10 20 5 (ascii "a"), TEv.cell 5 15 20 15 (ascii "x"), TEv.page] ∧
    (36 : ℚ) - 10 < 15 + 15 :=
  ⟨by with_unfolding_all decide, by with_unfolding_all decide⟩

/-- Every run of the `part_001` split loop consumes its word completely:
with fuel equal to the word length, the drawn prefixes concatenate back
to the word and every drawn prefix is nonempty. -/
theorem splitWordP1_join (width : List Nat → ℚ) (maxW ml L : ℚ) :
    ∀ (n : Nat) (word : List Nat), word.length ≤ n → ∀ (cx y : ℚ),
      ((splitWordP1 width maxW ml L n cx y word).2.2.map (fun e => e.2.2)).flatten = word ∧
      ((splitWordP1 width maxW ml L n cx y word).2.2.all (fun e => !e.2.2.isEmpty)) = true := by
  intro n
  induction n with
  | zero =>
    intro word hw cx y
    have hnil : word = [] := List.eq_nil_of_length_eq_zero (Nat.le_zero.mp hw)
    subst hnil
    simp [splitWordP1]
  | succ n ih =>
    intro word hw cx y
    match word with
    | [] => simp [splitWordP1]
    | a :: t =>
      by_cases hF : fitCount width (a :: t) (maxW - cx) = 0
      · have ht : t.length ≤ n := by
          simp only [List.length_cons] at hw
          omega
        have hrec := ih t ht
        simp only [splitWordP1, hF, if_pos, if_true, List.take_succ_cons, List.take_zero,
          List.drop_succ_cons, List.drop_zero, eq_self_iff_true]
        constructor
        · simp [(hrec _ _).1]
        · simp [(hrec _ _).2]
      · obtain ⟨m, hm⟩ := Nat.exists_eq_succ_of_ne_zero hF
        have hrest : ((a :: t).drop (fitCount width (a :: t) (maxW - cx))).length ≤ n := by
          rw [List.length_drop, hm]
          simp only [List.length_cons] at hw ⊢
          omega
        have hrec := ih _ hrest
        simp only [splitWordP1, hF, if_neg, if_false]
        constructor
        · simp only [List.map_cons, List.flatten_cons]
          rw [(hrec _ _).1]
          exact List.take_append_drop _ _
        · simp only [List.all_cons, (hrec _ _).2, Bool.and_true]
          rw [hm]
          simp [List.take_succ_cons]

/-- The stall of the `main.go` split loop: when a word is wider than the
whole line, does not fit the remaining width, and even its first byte
exceeds `maxWidth`, the fitting prefix is empty and the loop body leaves
the word unchanged, so no amount of fuel consumes it. -/
theorem mainWordLoop_stall (width : List Nat → ℚ) (g : Geom) (spaceW : ℚ)
    (b : Nat) (t : List Nat)
    (h1 : ¬ width (b :: t) ≤ g.maxWidth - g.marginLeft)
    (h2 : g.maxWidth < width (b :: t))
    (h3 : fitCount width (b :: t) g.maxWidth = 0) :
    ∀ (fuel : Nat) (y : ℚ),
      (mainWordLoop width g spaceW fuel g.marginLeft y (b :: t)).leftover = b :: t := by
  intro fuel
  induction fuel with
  | zero => intro y; rfl
  | succ n ih =>
    intro y
    simp only [mainWordLoop]
    rw [if_neg h1, if_pos h2, h3, List.drop_zero]
    exact ih _

/-- Claim C3: the `part_001` word-split engine fully consumes every word
— the drawn prefixes concatenate to the input, every drawn prefix is
nonempty, and the run is bounded by one iteration per byte — even when a
single byte is wider than the line, the forced one-byte branch
guarantees progress.  The `main.go` variant of the loop, by contrast,
stalls on a one-byte word of width 50 with maxWidth 40: its single
iteration draws the empty prefix and leaves the word unchanged, so the
word is never consumed under any fuel. -/
theorem claim_C3_word_split :
    (∀ (width : List Nat → ℚ) (maxW ml L cx y : ℚ) (word : List Nat),
        ((splitWordP1Run width maxW ml L cx y word).2.2.map (fun e => e.2.2)).flatten = word ∧
        ((splitWordP1Run width maxW ml L cx y word).2.2.all (fun e => !e.2.2.isEmpty)) = true) ∧
    (∀ (fuel : Nat) (y : ℚ),
        (mainWordLoop width50 g50 1 fuel 5 y (ascii "W")).leftover = ascii "W") ∧
    mainWordLoop width50 g50 1 1 5 10 (ascii "W") =
      ⟨5, 19, [Ev.draw 5 10 []], ascii "W"⟩ := by
  refine ⟨?_, ?_, by with_unfolding_all decide⟩
  · intro width maxW ml L cx y word
    exact splitWordP1_join width maxW ml L word.length word le_rfl cx y
  · intro fuel y
    exact mainWordLoop_stall width50 g50 1 87 []
      (by with_unfolding_all decide) (by with_unfolding_all decide)
      (by with_unfolding_all decide) fuel y

/-- The greedy maximum fold of the row-height loop in closed form:
starting from a nonnegative accumulator, the fold is the maximum of the
accumulator and `L` times the largest count. -/
theorem foldl_max_mul (L : ℚ) (hL : 0 < L) (f : Nat → Nat) :
    ∀ (idxs : List Nat) (a : ℚ), 0 ≤ a →
      idxs.foldl (fun h i => if h < (f i : ℚ) * L then (f i : ℚ) * L else h) a =
        max a (L * (((idxs.map f).foldr Nat.max 0 : Nat) : ℚ)) := by
  intro idxs
  induction idxs with
  | nil =>
    intro a ha
    simp [max_eq_left ha]
  | cons i idxs ih =>
    intro a ha
    have hstep : (if a < (f i : ℚ) * L then (f i : ℚ) * L else a) = max a ((f i : ℚ) * L) := by
      rcases lt_or_le a ((f i : ℚ) * L) with h | h
      · simp [h, max_eq_right h.le]
      · simp [not_lt.mpr h, max_eq_left h]
    have hb : (0 : ℚ) ≤ max a ((f i : ℚ) * L) := le_trans ha (le_max_left _ _)
    simp only [List.foldl_cons, List.map_cons, List.foldr_cons]
    rw [hstep, ih _ hb, Nat.cast_max, mul_max_of_nonneg _ _ hL.le, ← max_assoc,
      mul_comm L (f i : ℚ)]

/-- Every cell event produced by the cell loop carries the shared row
height. -/
theorem cellsEvents_heights (hq : ℚ) :
    ∀ (ws : List ℚ) (cx y : ℚ) (row : List (List Nat)),
      (cellsEvents ws cx y hq row).all (heightIs hq) = true := by
  intro ws
  induction ws with
  | nil => intro cx y row; rfl
  | cons w ws ih =>
    intro cx y row
    simp [cellsEvents, heightIs, ih]

/-- Claim C4: for a positive line height, the row height computed by the
table layout equals `lineHeight * max 1 k` where `k` is the largest
wrapped-line count over the cells of the row at their column widths
(floor of one line for rows whose cells all wrap to zero lines); every
cell box of the row carries this same height; and the row loop advances
the cursor by exactly the row height (concrete single-row run). -/
theorem claim_C4_row_height :
    (∀ (splits : List Nat → ℚ → Nat) (L : ℚ) (ws : List ℚ) (row : List (List Nat)),
        0 < L →
        rowHeightOf splits L ws row = L * ((Nat.max 1 (maxLines splits ws row) : Nat) : ℚ) ∧
        (∀ (x y : ℚ),
          (cellsEvents ws x y (rowHeightOf splits L ws row) row).all
            (heightIs (rowHeightOf splits L ws row)) = true)) ∧
    (csvRowsLoop splitsOne 1000 10 10 5 [20] 5 10 [[ascii "a"]]).1 =
      10 + rowHeightOf splitsOne 5 [20] [ascii "a"] := by
  constructor
  · intro splits L ws row hL
    refine ⟨?_, fun x y => cellsEvents_heights _ ws x y row⟩
    have h1 :
        rowHeightOf splits L ws row =
          max L (L * ((((List.range ws.length).map
            (fun i => splits (row.getD i []) (ws.getD i 0 - 2))).foldr Nat.max 0 : Nat) : ℚ)) :=
      foldl_max_mul L hL (fun i => splits (row.getD i []) (ws.getD i 0 - 2))
        (List.range ws.length) L hL.le
    rw [h1, Nat.cast_max, Nat.cast_one, mul_max_of_nonneg _ _ hL.le, mul_one]
    rfl
  · with_unfolding_all decide

/-- Witness for C4 at the three-line cell "x", line height 5 and one
column of width 20. -/
theorem claim_C4_row_height_wit :
    (rowHeightOf splits3 5 [20] [ascii "x"] =
        5 * ((Nat.max 1 (maxLines splits3 [20] [ascii "x"]) : Nat) : ℚ) ∧
      (∀ (x y : ℚ),
        (cellsEvents [20] x y (rowHeightOf splits3 5 [20] [ascii "x"]) [ascii "x"]).all
          (heightIs (rowHeightOf splits3 5 [20] [ascii "x"])) = true)) ∧
    (csvRowsLoop splitsOne 1000 10 10 5 [20] 5 10 [[ascii "a"]]).1 =
      10 + rowHeightOf splitsOne 5 [20] [ascii "a"] :=
  ⟨claim_C4_row_height.1 splits3 5 [20] [ascii "x"] (by norm_num),
    claim_C4_row_height.2⟩

/-- Claim C9 as amended: after drawing a (nonempty) row the cursor
advances by exactly that row's height and the free-space check runs
before the next row, but the check estimates the next row by the height
of the row just drawn — `y + h > pageHeight - marginBottom` with `h` the
current row height — resetting to the top margin of a fresh page exactly
when it fires; so the guarantee of starting on a fresh page covers only
a next row no taller than its predecessor (concrete run: two equal
one-line rows, where the second row does start in full at the top
margin of a fresh page). -/
theorem claim_C9_row_pagination :
    (∀ (splits : List Nat → ℚ → Nat) (H B mt L : ℚ) (ws : List ℚ) (x y : ℚ)
        (row : List (List Nat)) (rest : List (List (List Nat))),
        ¬ row.isEmpty = true →
        csvRowsLoop splits H B mt L ws x y (row :: rest) =
          ((csvRowsLoop splits H B mt L ws x
              (if H - B < (y + rowHeightOf splits L ws row) + rowHeightOf splits L ws row
               then mt else y + rowHeightOf splits L ws row) rest).1,
            cellsEvents ws x y (rowHeightOf splits L ws row) row ++
              (if H - B < (y + rowHeightOf splits L ws row) + rowHeightOf splits L ws row
               then [TEv.page] else []) ++
              (csvRowsLoop splits H B mt L ws x
                (if H - B < (y + rowHeightOf splits L ws row) + rowHeightOf splits L ws row
                 then mt else y + rowHeightOf splits L ws row) rest).2)) ∧
    (csvRowsLoop splitsOne 30 10 5 9 [20] 5 10 [[ascii "a"], [ascii "b"]]).2 =
      [TEv.cell 5 10 20 9 (ascii "a"), TEv.page, TEv.cell 5 5 20 9 (ascii "b"), TEv.page] := by
  refine ⟨?_, by with_unfolding_all decide⟩
  intro splits H B mt L ws x y row rest hrow
  simp only [csvRowsLoop]
  rw [if_neg hrow]

/-- Witness for C9 as amended: the step applied to the single one-line
row "a". -/
theorem claim_C9_row_pagination_wit :
    csvRowsLoop splitsOne 30 10 5 9 [20] 5 10 [[ascii "a"]] =
      ((csvRowsLoop splitsOne 30 10 5 9 [20] 5
          (if 30 - 10 < (10 + rowHeightOf splitsOne 9 [20] [ascii "a"]) +
              rowHeightOf splitsOne 9 [20] [ascii "a"]
           then 5 else 10 + rowHeightOf splitsOne 9 [20] [ascii "a"]) []).1,
        cellsEvents [20] 5 10 (rowHeightOf splitsOne 9 [20] [ascii "a"]) [ascii "a"] ++
          (if 30 - 10 < (10 + rowHeightOf splitsOne 9 [20] [ascii "a"]) +
              rowHeightOf splitsOne 9 [20] [ascii "a"]
           then [TEv.page] else []) ++
          (csvRowsLoop splitsOne 30 10 5 9 [20] 5
            (if 30 - 10 < (10 + rowHeightOf splitsOne 9 [20] [ascii "a"]) +
                rowHeightOf splitsOne 9 [20] [ascii "a"]
             then 5 else 10 + rowHeightOf splitsOne 9 [20] [ascii "a"]) []).2) :=
  claim_C9_row_pagination.1 splitsOne 30 10 5 9 [20] 5 10 [ascii "a"] [] (by decide)

end FG
